import Mathlib

set_option autoImplicit false

/-
  Verification of the synchronization layer of react-minisearch
  (src/react-minisearch.tsx).

  The layer keeps a string-keyed mirror object `documentById` in sync with an
  external MiniSearch index.  Documents are opaque values of a type `T`; the
  identity extractor `extractField(_, idField)` is modelled as a single
  function `x : T → JSId`.  JavaScript object keys are strings, so every
  identity is coerced to its string representation (`JSId.toKey`) when used as
  a mirror key, exactly as in the source.

  The MiniSearch index itself is an external collaborator whose code is not
  part of this repository; it is modelled from the spec (sections 2, 6 and 7):
  a container of identities where adding a duplicate identity fails and
  removing an absent identity fails, and whose batch operations apply
  element-wise, stopping at the first failure with the earlier elements
  already applied.
-/

namespace ReactMiniSearch

/-- A JavaScript identity value: the spec restricts identities to strings or
numbers.  Distinct identities (such as the number 1 and the string "1") may
coerce to the same string key. -/
inductive JSId where
  | num : Int → JSId
  | str : String → JSId
deriving DecidableEq, Repr

/-- JavaScript string coercion of an identity, applied whenever the identity
is used as a key of a plain object. -/
def JSId.toKey : JSId → String
  | .num n => toString n
  | .str s => s

/-! ### The Mirror Store

`documentByIdRef.current` is a plain JavaScript object mapping string keys to
documents.  We model it as an association list with at most one entry per key
(a JS object cannot hold two properties with the same key): `mirrorSet`
overwrites in place when the key exists and appends new keys at the end, as
JS property assignment does. -/

/-- The mirror store: a string-keyed JavaScript object holding documents. -/
abbrev Mirror (T : Type) := List (String × T)

/-- Property lookup `m[k]`; `none` models JS `undefined`. -/
def mirrorGet {T : Type} (m : Mirror T) (k : String) : Option T :=
  (m.find? (fun p => p.1 == k)).map Prod.snd

/-- Key-presence test, as used by the `ignoreIfMissing` filter. -/
def mirrorHasKey {T : Type} (m : Mirror T) (k : String) : Bool :=
  m.any (fun p => p.1 == k)

/-- Property assignment `m[k] = v`: overwrite in place if the key exists,
append otherwise. -/
def mirrorSet {T : Type} : Mirror T → String → T → Mirror T
  | [], k, v => [(k, v)]
  | p :: rest, k, v => if p.1 == k then (k, v) :: rest else p :: mirrorSet rest k v

/-- Property deletion `delete m[k]` (the `removeFromMap` helper). -/
def mirrorDelete {T : Type} (m : Mirror T) (k : String) : Mirror T :=
  m.filter (fun p => p.1 != k)

/-- The `removeManyFromMap` helper: delete each key in turn. -/
def mirrorDeleteMany {T : Type} (m : Mirror T) (ks : List String) : Mirror T :=
  ks.foldl mirrorDelete m

/-- `Object.assign(m, b)`: copy every entry of `b` into `m`. -/
def mirrorMerge {T : Type} (m b : Mirror T) : Mirror T :=
  b.foldl (fun acc p => mirrorSet acc p.1 p.2) m

/-- The list of keys of the mirror object. -/
def mirrorKeys {T : Type} (m : Mirror T) : List String :=
  m.map Prod.fst

/-- Left-biased choice on options, the shape in which merged lookups are
described: the first operand wins when present. -/
def optOr {α : Type} : Option α → Option α → Option α
  | some v, _ => some v
  | none, b => b

/-! ### The External Index Service

MiniSearch itself is an external collaborator, out of scope of this layer;
its code is not in this repository.  Its required behaviour is modelled from
the spec (sections 2, 6 and 7): a container of document identities where
adding an already-indexed identity and removing an absent identity are the
index failures, and batch operations apply element-wise, stopping at the
first failure with the earlier elements already applied. -/

/-- Errors surfaced to the caller of a synchronization operation.
`notFound` is the one error raised by this layer itself (in `removeById`);
the other two are index-operation failures propagated unchanged. -/
inductive Err where
  | notFound
  | duplicateAdd
  | removeMissing
deriving DecidableEq, Repr

/-- Modelled from the spec: the External Index Service's single add, keyed by
identity; adding a duplicate identity is an index failure (spec section 7). -/
def indexAdd (idx : List JSId) (i : JSId) : List JSId × Option Err :=
  if i ∈ idx then (idx, some .duplicateAdd) else (idx ++ [i], none)

/-- Modelled from the spec: the External Index Service's single remove, keyed
by identity; removing an absent identity is an index failure. -/
def indexRemove (idx : List JSId) (i : JSId) : List JSId × Option Err :=
  if i ∈ idx then (idx.erase i, none) else (idx, some .removeMissing)

/-- Modelled from the spec: the index's batch add applies `indexAdd`
element-wise and stops at the first failure, the earlier elements already
applied. -/
def indexAddAll : List JSId → List JSId → List JSId × Option Err
  | idx, [] => (idx, none)
  | idx, i :: rest =>
    match indexAdd idx i with
    | (idx', none) => indexAddAll idx' rest
    | (idx', some err) => (idx', some err)

/-- Modelled from the spec: the index's batch remove applies `indexRemove`
element-wise and stops at the first failure. -/
def indexRemoveMany : List JSId → List JSId → List JSId × Option Err
  | idx, [] => (idx, none)
  | idx, i :: rest =>
    match indexRemove idx i with
    | (idx', none) => indexRemoveMany idx' rest
    | (idx', some err) => (idx', some err)

/-! ### The Synchronization Engine state -/

/-- A raw search hit returned by the external index: an identity plus
index-assigned score metadata. -/
structure Hit where
  id : JSId
  score : Int
deriving DecidableEq, Repr

/-- The state owned by one `useMiniSearch` instance: the index handle, the
mirror object `documentByIdRef.current`, the projection state
(`rawResults`, `searchResults`, `suggestions`) and the `isIndexing` flag. -/
structure Engine (T : Type) where
  index : List JSId
  documentById : Mirror T
  rawResults : Option (List Hit)
  searchResults : Option (List (Option T))
  suggestions : Option (List String)
  isIndexing : Bool
deriving DecidableEq, Repr

/-- The initial state of a freshly constructed engine. -/
def emptyEngine (T : Type) : Engine T :=
  { index := [], documentById := [], rawResults := none, searchResults := none,
    suggestions := none, isIndexing := false }

/-! ### Operations (src/react-minisearch.tsx lines 40-108)

Each definition translates the body of the corresponding closure; the
identity extractor `extractField(_, idField)` is the parameter `x`.  An
operation that can throw returns the state as left behind when the exception
propagates, together with the error. -/

/-- Lines 40-45: `search` asks the index (whose ranking is opaque, so its
ordered hit sequence `results` is a parameter), materializes every hit
through the mirror by its string-coerced identity, and stores both
projections. -/
def search {T : Type} (e : Engine T) (results : List Hit) : Engine T :=
  { e with
    searchResults := some (results.map (fun h => mirrorGet e.documentById h.id.toKey)),
    rawResults := some results }

/-- Lines 47-50: `autoSuggest` stores the index-produced suggestions. -/
def autoSuggest {T : Type} (e : Engine T) (sugg : List String) : Engine T :=
  { e with suggestions := some sugg }

/-- Lines 52-55: `add` writes the document into the mirror under its
string-coerced identity, then calls the index's add; an index failure
propagates after the mirror write has already happened. -/
def add {T : Type} (x : T → JSId) (e : Engine T) (document : T) : Engine T × Option Err :=
  let e1 := { e with documentById := mirrorSet e.documentById (x document).toKey document }
  match indexAdd e1.index (x document) with
  | (idx, none) => ({ e1 with index := idx }, none)
  | (_, some err) => (e1, some err)

/-- Lines 31-35: `gatherById` reduces the batch into a fresh object keyed by
string-coerced identity. -/
def gatherById {T : Type} (x : T → JSId) (documents : List T) : Mirror T :=
  documents.foldl (fun byId doc => mirrorSet byId (x doc).toKey doc) []

/-- Lines 57-61: `addAll` merges the gathered batch into the mirror in one
`Object.assign` pass, then calls the index's batch add. -/
def addAll {T : Type} (x : T → JSId) (e : Engine T) (documents : List T) :
    Engine T × Option Err :=
  let e1 := { e with documentById := mirrorMerge e.documentById (gatherById x documents) }
  match indexAddAll e1.index (documents.map x) with
  | (idx, none) => ({ e1 with index := idx }, none)
  | (idx, some err) => ({ e1 with index := idx }, some err)

/-- Lines 63-67: the synchronous phase of `addAllAsync`, run to completion
before control returns to the caller: the same mirror merge as `addAll`,
then `setIsIndexing(true)`. -/
def addAllAsyncStart {T : Type} (x : T → JSId) (e : Engine T) (documents : List T) :
    Engine T :=
  { e with documentById := mirrorMerge e.documentById (gatherById x documents),
           isIndexing := true }

/-- How the asynchronous chunked index add settles. -/
inductive Settle where
  | success
  | failure
deriving DecidableEq, Repr

/-- Lines 68-70: the settlement of the promise chain
`miniSearch.addAllAsync(...).then(() => setIsIndexing(false))`.  The chunked
population is the index's job; `idx'` is the index contents it leaves behind
when its promise settles.  `.then` with no rejection handler runs its
callback only on fulfillment and passes a rejection through unchanged; the
pair's second component is the settlement of the promise `addAllAsync`
returned to its caller. -/
def addAllAsyncSettle {T : Type} (e : Engine T) (idx' : List JSId) :
    Settle → Engine T × Settle
  | .success => ({ e with index := idx', isIndexing := false }, .success)
  | .failure => ({ e with index := idx' }, .failure)

/-- Lines 73-76: `remove` calls the index's remove first, then deletes the
string-coerced identity from the mirror. -/
def remove {T : Type} (x : T → JSId) (e : Engine T) (document : T) : Engine T × Option Err :=
  match indexRemove e.index (x document) with
  | (idx, none) =>
    ({ e with index := idx,
              documentById := mirrorDelete e.documentById (x document).toKey }, none)
  | (_, some err) => (e, some err)

/-- Lines 78-85: `removeById` looks the document up in the mirror; if absent
it throws the NotFound error before touching anything, otherwise it removes
the stored document from the index and deletes the key. -/
def removeById {T : Type} (x : T → JSId) (e : Engine T) (id : JSId) : Engine T × Option Err :=
  match mirrorGet e.documentById id.toKey with
  | none => (e, some .notFound)
  | some document =>
    match indexRemove e.index (x document) with
    | (idx, none) =>
      ({ e with index := idx,
                documentById := mirrorDelete e.documentById id.toKey }, none)
    | (_, some err) => (e, some err)

/-- Lines 88-90: `removeAll` with no documents argument clears the index and
replaces the mirror with a fresh empty object. -/
def removeAllClear {T : Type} (e : Engine T) : Engine T × Option Err :=
  ({ e with index := [], documentById := [] }, none)

/-- Lines 92-94: the documents `removeAll` actually works on — under
`ignoreIfMissing` those whose string-coerced identity is a current mirror
key, otherwise the batch as given. -/
def removeAllTargets {T : Type} (x : T → JSId) (e : Engine T) (documents : List T) :
    Bool → List T
  | true => documents.filter (fun d => mirrorHasKey e.documentById (x d).toKey)
  | false => documents

/-- Lines 91-98: `removeAll` with a documents list: under `ignoreIfMissing`
first drop the documents whose string-coerced identity is not a mirror key,
then call the index's batch remove and delete the remaining identities from
the mirror.  If the index call throws, the mirror deletions never run. -/
def removeAllDocs {T : Type} (x : T → JSId) (e : Engine T) (documents : List T)
    (ignoreIfMissing : Bool) : Engine T × Option Err :=
  let docs := removeAllTargets x e documents ignoreIfMissing
  match indexRemoveMany e.index (docs.map x) with
  | (idx, none) =>
    ({ e with index := idx,
              documentById := mirrorDeleteMany e.documentById
                (docs.map (fun d => (x d).toKey)) }, none)
  | (idx, some err) => ({ e with index := idx }, some err)

/-- Lines 101-104: `clearSearch` resets both result projections. -/
def clearSearch {T : Type} (e : Engine T) : Engine T :=
  { e with searchResults := none, rawResults := none }

/-- Lines 106-108: `clearSuggestions` resets the suggestion projection. -/
def clearSuggestions {T : Type} (e : Engine T) : Engine T :=
  { e with suggestions := none }

/-! ### Operation sequences -/

/-- A caller-level mutation operation, for stating the coherence invariant
over arbitrary operation sequences. -/
inductive Op (T : Type) where
  | add (document : T)
  | addAll (documents : List T)
  | remove (document : T)
  | removeById (id : JSId)
  | removeAllClear
  | removeAllDocs (documents : List T) (ignoreIfMissing : Bool)
deriving Repr

/-- Run one operation. -/
def runOp {T : Type} (x : T → JSId) (e : Engine T) : Op T → Engine T × Option Err
  | .add d => add x e d
  | .addAll ds => addAll x e ds
  | .remove d => remove x e d
  | .removeById i => removeById x e i
  | .removeAllClear => removeAllClear e
  | .removeAllDocs ds ign => removeAllDocs x e ds ign

/-- Run a sequence of caller-level operations; a thrown error propagates to
the caller, who keeps going with the state the operation left behind. -/
def runOps {T : Type} (x : T → JSId) (e : Engine T) : List (Op T) → Engine T
  | [] => e
  | op :: rest => runOps x (runOp x e op).1 rest

/-- Whether a step raised no failure of the External Index Service
(`removeById`'s own NotFound error is this layer's, not the index's). -/
def stepOk : Option Err → Bool
  | none => true
  | some .notFound => true
  | some _ => false

/-- No operation of the sequence makes a failing call to the External Index
Service. -/
def opsOk {T : Type} (x : T → JSId) (e : Engine T) : List (Op T) → Bool
  | [] => true
  | op :: rest => stepOk (runOp x e op).2 && opsOk x (runOp x e op).1 rest

/-- Left fold in which a later hit of `f` overrides the accumulated one:
the shape of every last-write-wins bookkeeping in this development. -/
def foldOr {T A : Type} (f : A → Option T) (l : List A) (acc : Option T) : Option T :=
  l.foldl (fun a d => optOr (f d) a) acc

/-- The last document of the batch `ds` whose extracted identity is `i`,
if any. -/
def batchLast {T : Type} (x : T → JSId) (ds : List T) (i : JSId) : Option T :=
  foldOr (fun d => if x d = i then some d else none) ds none

/-- The last document of the batch `ds` whose identity coerces to the string
key `k`, if any: the value `gatherById` leaves under `k`. -/
def batchLastK {T : Type} (x : T → JSId) (ds : List T) (k : String) : Option T :=
  foldOr (fun d => if (x d).toKey = k then some d else none) ds none

/-- One step of `lastAdded`. -/
def opLast {T : Type} (x : T → JSId) (i : JSId) (acc : Option T) : Op T → Option T
  | .add d => if x d = i then some d else acc
  | .addAll ds => optOr (batchLast x ds i) acc
  | _ => acc

/-- The last document added with identity `i` over the course of `ops`
(starting from the knowledge `acc`). -/
def lastAdded {T : Type} (x : T → JSId) (acc : Option T) (ops : List (Op T)) (i : JSId) :
    Option T :=
  ops.foldl (fun a op => opLast x i a op) acc

/-- Every identity an operation extracts or is given. -/
def opIds {T : Type} (x : T → JSId) : Op T → List JSId
  | .add d => [x d]
  | .addAll ds => ds.map x
  | .remove d => [x d]
  | .removeById i => [i]
  | .removeAllClear => []
  | .removeAllDocs ds _ => ds.map x

/-- Every identity appearing in a sequence of operations. -/
def opsIds {T : Type} (x : T → JSId) (ops : List (Op T)) : List JSId :=
  (ops.map (opIds x)).flatten

/-- Calling `add` on each document in list order; an exception aborts the
loop, as it would abort a caller's loop of `add` calls. -/
def addEach {T : Type} (x : T → JSId) (e : Engine T) : List T → Engine T × Option Err
  | [] => (e, none)
  | d :: rest =>
    match add x e d with
    | (e', none) => addEach x e' rest
    | (e', some err) => (e', some err)

/-! ### Concrete instances used to exercise the theorems

For concrete runs the document type is either `JSId` itself (the document is
its own identity) or `JSId × Int` (an identity plus a payload, so that two
documents can share an identity). -/

/-- The identity extractor of a document that is its own identity. -/
def idExtract : JSId → JSId := fun i => i

/-- The identity extractor of an (identity, payload) record. -/
def pairExtract : JSId × Int → JSId := Prod.fst

/-- A one-document engine state: identity 1 indexed and mirrored. -/
def sampleEngine : Engine JSId :=
  { emptyEngine JSId with index := [JSId.num 1], documentById := [("1", JSId.num 1)] }

@[simp] theorem optOr_some {α : Type} (v : α) (b : Option α) : optOr (some v) b = some v := rfl

@[simp] theorem optOr_none {α : Type} (b : Option α) : optOr none b = b := rfl

/-! ### Basic mirror lemmas -/

@[simp] theorem mirrorGet_nil {T : Type} (k : String) : mirrorGet ([] : Mirror T) k = none := rfl

theorem mirrorGet_cons {T : Type} (p : String × T) (rest : Mirror T) (k : String) :
    mirrorGet (p :: rest) k = if p.1 = k then some p.2 else mirrorGet rest k := by
  simp only [mirrorGet, List.find?]
  cases hb : p.1 == k with
  | false => simp [beq_eq_false_iff_ne.mp hb]
  | true => simp [beq_iff_eq.mp hb]

@[simp] theorem mirrorHasKey_nil {T : Type} (k : String) :
    mirrorHasKey ([] : Mirror T) k = false := rfl

theorem mirrorHasKey_cons {T : Type} (p : String × T) (rest : Mirror T) (k : String) :
    mirrorHasKey (p :: rest) k = (p.1 == k || mirrorHasKey rest k) := by
  simp [mirrorHasKey]

theorem mirrorSet_cons {T : Type} (p : String × T) (rest : Mirror T) (k : String) (v : T) :
    mirrorSet (p :: rest) k v =
      if p.1 = k then (k, v) :: rest else p :: mirrorSet rest k v := by
  by_cases h : p.1 = k <;> simp [mirrorSet, h]

theorem mirrorDelete_cons {T : Type} (p : String × T) (rest : Mirror T) (k : String) :
    mirrorDelete (p :: rest) k =
      if p.1 = k then mirrorDelete rest k else p :: mirrorDelete rest k := by
  by_cases h : p.1 = k <;> simp [mirrorDelete, List.filter_cons, h]

theorem mirrorHasKey_iff_isSome {T : Type} (m : Mirror T) (k : String) :
    mirrorHasKey m k = true ↔ (mirrorGet m k).isSome = true := by
  induction m with
  | nil => simp
  | cons p rest ih =>
    rw [mirrorHasKey_cons, mirrorGet_cons]
    by_cases h : p.1 = k
    · simp [h]
    · simp [h, ih]

theorem mirrorHasKey_iff_mem_keys {T : Type} (m : Mirror T) (k : String) :
    mirrorHasKey m k = true ↔ k ∈ mirrorKeys m := by
  induction m with
  | nil => simp [mirrorKeys]
  | cons p rest ih =>
    rw [mirrorHasKey_cons]
    by_cases h : p.1 = k
    · simp [mirrorKeys, h]
    · simp only [mirrorKeys, List.map_cons, List.mem_cons] at ih ⊢
      simp [h, ih, Ne.symm h]

theorem mirrorGet_eq_none_of_not_mem_keys {T : Type} {m : Mirror T} {k : String}
    (h : k ∉ mirrorKeys m) : mirrorGet m k = none := by
  cases hg : mirrorGet m k with
  | none => rfl
  | some v =>
    exact absurd ((mirrorHasKey_iff_mem_keys m k).mp
      ((mirrorHasKey_iff_isSome m k).mpr (by simp [hg]))) h

theorem mirrorGet_set {T : Type} (m : Mirror T) (k : String) (v : T) (k' : String) :
    mirrorGet (mirrorSet m k v) k' = if k' = k then some v else mirrorGet m k' := by
  induction m with
  | nil =>
    by_cases h : k' = k
    · simp [mirrorSet, mirrorGet_cons, h]
    · simp [mirrorSet, mirrorGet_cons, h, Ne.symm h]
  | cons p rest ih =>
    rw [mirrorSet_cons]
    by_cases hp : p.1 = k
    · rw [if_pos hp, mirrorGet_cons, mirrorGet_cons]
      by_cases hk : k' = k
      · simp [hk]
      · have : ¬ p.1 = k' := fun hc => hk (hc.symm.trans hp)
        simp [hk, Ne.symm hk, this]
    · rw [if_neg hp, mirrorGet_cons, mirrorGet_cons, ih]
      by_cases hq : p.1 = k'
      · have hk : ¬ k' = k := fun hc => hp (hq.trans hc)
        simp [hq, hk]
      · simp [hq]

theorem mirrorKeys_set {T : Type} (m : Mirror T) (k : String) (v : T) :
    mirrorKeys (mirrorSet m k v) =
      if mirrorHasKey m k then mirrorKeys m else mirrorKeys m ++ [k] := by
  induction m with
  | nil => simp [mirrorSet, mirrorKeys]
  | cons p rest ih =>
    rw [mirrorSet_cons, mirrorHasKey_cons]
    by_cases hp : p.1 = k
    · simp [mirrorKeys, hp]
    · by_cases hrest : mirrorHasKey rest k
      · simp [mirrorKeys, hp, hrest] at ih ⊢
        exact ih
      · simp only [mirrorKeys, List.map_cons] at ih ⊢
        simp [hp, hrest] at ih ⊢
        simp [ih]

theorem mirrorGet_delete {T : Type} (m : Mirror T) (k k' : String) :
    mirrorGet (mirrorDelete m k) k' = if k' = k then none else mirrorGet m k' := by
  induction m with
  | nil => simp [mirrorDelete]
  | cons p rest ih =>
    rw [mirrorDelete_cons]
    by_cases hp : p.1 = k
    · rw [if_pos hp, ih, mirrorGet_cons]
      by_cases hk : k' = k
      · simp [hk]
      · have : ¬ p.1 = k' := fun hc => hk (hc.symm.trans hp)
        simp [hk, this]
    · rw [if_neg hp, mirrorGet_cons, mirrorGet_cons, ih]
      by_cases hq : p.1 = k'
      · have hk : ¬ k' = k := fun hc => hp (hq.trans hc)
        simp [hq, hk]
      · simp [hq]

theorem mirrorGet_deleteMany {T : Type} (ks : List String) (m : Mirror T) (k' : String) :
    mirrorGet (mirrorDeleteMany m ks) k' =
      if k' ∈ ks then none else mirrorGet m k' := by
  induction ks generalizing m with
  | nil => simp [mirrorDeleteMany]
  | cons k rest ih =>
    simp only [mirrorDeleteMany, List.foldl] at ih ⊢
    rw [ih]
    by_cases h1 : k' ∈ rest
    · simp [h1]
    · by_cases h2 : k' = k
      · simp [h1, h2, mirrorGet_delete]
      · simp [h1, h2, mirrorGet_delete]

/-- Key-to-value semantics of `Object.assign` when the copied object `b` has
no duplicate keys (a JS object never has): an entry of `b` wins over `m`. -/
theorem mirrorGet_merge {T : Type} (b m : Mirror T) (k : String)
    (hnd : (mirrorKeys b).Nodup) :
    mirrorGet (mirrorMerge m b) k = optOr (mirrorGet b k) (mirrorGet m k) := by
  induction b generalizing m with
  | nil => simp [mirrorMerge]
  | cons p rest ih =>
    simp only [mirrorKeys, List.map_cons, List.nodup_cons] at hnd
    have hrest : (mirrorKeys rest).Nodup := hnd.2
    simp only [mirrorMerge, List.foldl] at ih ⊢
    rw [ih _ hrest, mirrorGet_cons]
    by_cases hk : p.1 = k
    · have hnone : mirrorGet rest k = none := by
        apply mirrorGet_eq_none_of_not_mem_keys
        rw [← hk]; exact hnd.1
      simp [hk, hnone, mirrorGet_set]
    · have : ¬ k = p.1 := fun hc => hk hc.symm
      simp [hk, mirrorGet_set, this]

/-! ### foldOr and batch lemmas -/

theorem optOr_assoc {α : Type} (a b c : Option α) :
    optOr (optOr a b) c = optOr a (optOr b c) := by
  cases a <;> rfl

@[simp] theorem optOr_none_right {α : Type} (a : Option α) : optOr a none = a := by
  cases a <;> rfl

theorem optOr_isSome {α : Type} (a b : Option α) :
    (optOr a b).isSome = (a.isSome || b.isSome) := by
  cases a <;> simp

@[simp] theorem foldOr_nil {T A : Type} (f : A → Option T) (acc : Option T) :
    foldOr f [] acc = acc := rfl

theorem foldOr_cons {T A : Type} (f : A → Option T) (d : A) (l : List A) (acc : Option T) :
    foldOr f (d :: l) acc = foldOr f l (optOr (f d) acc) := rfl

theorem foldOr_acc {T A : Type} (f : A → Option T) (l : List A) (acc : Option T) :
    foldOr f l acc = optOr (foldOr f l none) acc := by
  induction l generalizing acc with
  | nil => simp
  | cons d rest ih =>
    rw [foldOr_cons, foldOr_cons, ih (optOr (f d) acc), ih (optOr (f d) none), optOr_assoc,
      optOr_none_right]

theorem foldOr_append {T A : Type} (f : A → Option T) (l1 l2 : List A) (acc : Option T) :
    foldOr f (l1 ++ l2) acc = foldOr f l2 (foldOr f l1 acc) := by
  simp [foldOr, List.foldl_append]

theorem batchLastK_append {T : Type} (x : T → JSId) (ds : List T) (d : T) (k : String) :
    batchLastK x (ds ++ [d]) k =
      optOr (if (x d).toKey = k then some d else none) (batchLastK x ds k) := by
  rw [batchLastK, foldOr_append, batchLastK, foldOr_cons, foldOr_nil, foldOr_acc,
    optOr_none_right]

theorem batchLast_append {T : Type} (x : T → JSId) (ds : List T) (d : T) (i : JSId) :
    batchLast x (ds ++ [d]) i =
      optOr (if x d = i then some d else none) (batchLast x ds i) := by
  rw [batchLast, foldOr_append, batchLast, foldOr_cons, foldOr_nil, foldOr_acc,
    optOr_none_right]

theorem batchLastK_isSome_of_mem {T : Type} (x : T → JSId) {ds : List T} {d : T}
    (hd : d ∈ ds) : (batchLastK x ds (x d).toKey).isSome = true := by
  induction ds with
  | nil => cases hd
  | cons d' rest ih =>
    rw [batchLastK, foldOr_cons, foldOr_acc, optOr_isSome]
    rcases List.mem_cons.mp hd with h | h
    · subst h
      simp
    · rw [← batchLastK, ih h]
      simp

/-! ### gatherById lemmas -/

theorem gatherById_append {T : Type} (x : T → JSId) (ds : List T) (d : T) :
    gatherById x (ds ++ [d]) = mirrorSet (gatherById x ds) (x d).toKey d := by
  simp [gatherById, List.foldl_append]

theorem mirrorGet_gatherById {T : Type} (x : T → JSId) (ds : List T) (k : String) :
    mirrorGet (gatherById x ds) k = batchLastK x ds k := by
  induction ds using List.reverseRecOn with
  | nil => simp [gatherById, batchLastK]
  | append_singleton ds d ih =>
    rw [gatherById_append, mirrorGet_set, batchLastK_append, ih]
    by_cases h : (x d).toKey = k
    · simp [h]
    · have : ¬ k = (x d).toKey := fun hc => h hc.symm
      simp [h, this]

theorem gatherById_keys_nodup {T : Type} (x : T → JSId) (ds : List T) :
    (mirrorKeys (gatherById x ds)).Nodup := by
  induction ds using List.reverseRecOn with
  | nil => simp [gatherById, mirrorKeys]
  | append_singleton ds d ih =>
    rw [gatherById_append, mirrorKeys_set]
    by_cases h : mirrorHasKey (gatherById x ds) (x d).toKey
    · simp [h, ih]
    · have : (x d).toKey ∉ mirrorKeys (gatherById x ds) := fun hc =>
        (by simp [h] : ¬ _) ((mirrorHasKey_iff_mem_keys _ _).mpr hc)
      simp [h, List.nodup_append, ih, this]

/-- What `Object.assign(documentById, gatherById(documents))` looks like to a
lookup: a batch document wins, the old mirror shows through elsewhere. -/
theorem mirrorGet_merge_gather {T : Type} (x : T → JSId) (m : Mirror T) (ds : List T)
    (k : String) :
    mirrorGet (mirrorMerge m (gatherById x ds)) k =
      optOr (batchLastK x ds k) (mirrorGet m k) := by
  rw [mirrorGet_merge _ _ _ (gatherById_keys_nodup x ds), mirrorGet_gatherById]

/-! ### External index lemmas -/

theorem indexAddAll_ok {idx is : List JSId} (h : (indexAddAll idx is).2 = none) :
    (indexAddAll idx is).1 = idx ++ is ∧ is.Nodup ∧ ∀ i ∈ is, i ∉ idx := by
  induction is generalizing idx with
  | nil => simp [indexAddAll]
  | cons i rest ih =>
    by_cases hmem : i ∈ idx
    · simp [indexAddAll, indexAdd, hmem] at h
    · simp only [indexAddAll, indexAdd, hmem, if_false] at h ⊢
      obtain ⟨h1, h2, h3⟩ := ih h
      refine ⟨by simp [h1], ?_, ?_⟩
      · refine List.nodup_cons.mpr ⟨?_, h2⟩
        intro hc
        exact absurd (by simp : i ∈ idx ++ [i]) (h3 i hc)
      · intro j hj
        rcases List.mem_cons.mp hj with rfl | hj'
        · exact hmem
        · intro hc
          exact h3 j hj' (by simp [hc])

theorem indexRemoveMany_ok {idx is : List JSId} (hnd : idx.Nodup)
    (h : (indexRemoveMany idx is).2 = none) :
    (∀ j, j ∈ (indexRemoveMany idx is).1 ↔ (j ∈ idx ∧ j ∉ is)) ∧
    (indexRemoveMany idx is).1.Nodup ∧ ∀ i ∈ is, i ∈ idx := by
  induction is generalizing idx with
  | nil => simp [indexRemoveMany, hnd]
  | cons i rest ih =>
    by_cases hmem : i ∈ idx
    · simp only [indexRemoveMany, indexRemove, hmem, if_true] at h ⊢
      obtain ⟨h1, h2, h3⟩ := ih (hnd.erase i) h
      refine ⟨?_, h2, ?_⟩
      · intro j
        rw [h1 j, hnd.mem_erase_iff]
        constructor
        · rintro ⟨⟨hji, hjm⟩, hjr⟩
          exact ⟨hjm, by simp [hji, hjr]⟩
        · rintro ⟨hjm, hjr⟩
          simp only [List.mem_cons, not_or] at hjr
          exact ⟨⟨hjr.1, hjm⟩, hjr.2⟩
      · intro j hj
        rcases List.mem_cons.mp hj with rfl | hj'
        · exact hmem
        · exact (hnd.mem_erase_iff.mp (h3 j hj')).2
    · simp [indexRemoveMany, indexRemove, hmem] at h

/-! ### Operation state characterizations -/

theorem add_success {T : Type} (x : T → JSId) (e : Engine T) (d : T)
    (h : x d ∉ e.index) :
    add x e d = ({ e with documentById := mirrorSet e.documentById (x d).toKey d,
                          index := e.index ++ [x d] }, none) := by
  simp [add, indexAdd, h]

theorem add_failure {T : Type} (x : T → JSId) (e : Engine T) (d : T)
    (h : x d ∈ e.index) :
    add x e d = ({ e with documentById := mirrorSet e.documentById (x d).toKey d },
                 some Err.duplicateAdd) := by
  simp [add, indexAdd, h]

theorem add_documentById {T : Type} (x : T → JSId) (e : Engine T) (d : T) :
    (add x e d).1.documentById = mirrorSet e.documentById (x d).toKey d := by
  by_cases h : x d ∈ e.index
  · rw [add_failure x e d h]
  · rw [add_success x e d h]

theorem remove_success {T : Type} (x : T → JSId) (e : Engine T) (d : T)
    (h : x d ∈ e.index) :
    remove x e d = ({ e with index := e.index.erase (x d),
                             documentById := mirrorDelete e.documentById (x d).toKey },
                    none) := by
  simp [remove, indexRemove, h]

theorem remove_failure {T : Type} (x : T → JSId) (e : Engine T) (d : T)
    (h : x d ∉ e.index) :
    remove x e d = (e, some Err.removeMissing) := by
  simp [remove, indexRemove, h]

theorem removeById_absent {T : Type} (x : T → JSId) (e : Engine T) (i : JSId)
    (h : mirrorGet e.documentById i.toKey = none) :
    removeById x e i = (e, some Err.notFound) := by
  simp [removeById, h]

theorem removeById_present_mem {T : Type} (x : T → JSId) (e : Engine T) (i : JSId) (d : T)
    (hd : mirrorGet e.documentById i.toKey = some d) (hmem : x d ∈ e.index) :
    removeById x e i = ({ e with index := e.index.erase (x d),
                                 documentById := mirrorDelete e.documentById i.toKey },
                        none) := by
  simp [removeById, hd, indexRemove, hmem]

theorem removeById_present_not_mem {T : Type} (x : T → JSId) (e : Engine T) (i : JSId)
    (d : T) (hd : mirrorGet e.documentById i.toKey = some d) (hmem : x d ∉ e.index) :
    removeById x e i = (e, some Err.removeMissing) := by
  simp [removeById, hd, indexRemove, hmem]

theorem removeAllDocs_plain {T : Type} (x : T → JSId) (e : Engine T) (ds : List T) :
    removeAllDocs x e ds false =
      (match indexRemoveMany e.index (ds.map x) with
       | (idx, none) =>
         ({ e with index := idx,
                   documentById := mirrorDeleteMany e.documentById
                     (ds.map fun d => (x d).toKey) }, none)
       | (idx, some err) => ({ e with index := idx }, some err)) := rfl

theorem addAll_eq {T : Type} (x : T → JSId) (e : Engine T) (ds : List T) :
    addAll x e ds =
      ({ e with documentById := mirrorMerge e.documentById (gatherById x ds),
                index := (indexAddAll e.index (ds.map x)).1 },
       (indexAddAll e.index (ds.map x)).2) := by
  unfold addAll
  rcases h : indexAddAll e.index (ds.map x) with ⟨idx, err⟩
  cases err <;> simp [h]

/-! ### Iterated-add lemmas -/

theorem mirrorGet_foldl_set {T : Type} (x : T → JSId) (ds : List T) (m : Mirror T)
    (k : String) :
    mirrorGet (ds.foldl (fun acc d => mirrorSet acc (x d).toKey d) m) k =
      optOr (batchLastK x ds k) (mirrorGet m k) := by
  induction ds using List.reverseRecOn with
  | nil => simp [batchLastK]
  | append_singleton ds d ih =>
    rw [List.foldl_append, List.foldl_cons, List.foldl_nil, mirrorGet_set, ih,
      batchLastK_append, optOr_assoc]
    by_cases h : (x d).toKey = k
    · subst h
      simp
    · have : ¬ k = (x d).toKey := fun hc => h hc.symm
      simp [h, this]

theorem addEach_ok {T : Type} (x : T → JSId) (e : Engine T) (ds : List T)
    (h : (indexAddAll e.index (ds.map x)).2 = none) :
    addEach x e ds =
      ({ e with index := e.index ++ ds.map x,
                documentById :=
                  ds.foldl (fun acc d => mirrorSet acc (x d).toKey d) e.documentById },
       none) := by
  induction ds generalizing e with
  | nil =>
    simp only [addEach, List.map_nil, List.foldl_nil, List.append_nil]
  | cons d rest ih =>
    have hmem : x d ∉ e.index := by
      by_cases hc : x d ∈ e.index
      · simp [indexAddAll, indexAdd, hc] at h
      · exact hc
    have hrest : (indexAddAll (e.index ++ [x d]) (rest.map x)).2 = none := by
      simpa [indexAddAll, indexAdd, hmem] using h
    have hadd := add_success x e d hmem
    simp only [addEach, hadd]
    rw [ih _ hrest]
    simp [List.append_assoc]

/-! ### Sequence bookkeeping lemmas -/

theorem foldOr_extract {T A : Type} (f : A → Option T) (l : List A) (acc : Option T)
    (v : T) (h : foldOr f l acc = some v) :
    (∃ a ∈ l, f a = some v) ∨ acc = some v := by
  induction l generalizing acc with
  | nil => exact Or.inr h
  | cons a rest ih =>
    rw [foldOr_cons] at h
    rcases ih _ h with h1 | h1
    · rcases h1 with ⟨a', ha', hf⟩
      exact Or.inl ⟨a', List.mem_cons_of_mem a ha', hf⟩
    · cases hfa : f a with
      | some w =>
        rw [hfa] at h1
        exact Or.inl ⟨a, List.mem_cons_self a rest, by rw [hfa, ← h1, optOr_some]⟩
      | none =>
        rw [hfa] at h1
        exact Or.inr h1

theorem batchLast_extract {T : Type} (x : T → JSId) (ds : List T) (i : JSId) (d : T)
    (h : batchLast x ds i = some d) : x d = i := by
  rcases foldOr_extract _ ds none d h with ⟨a, _, hf⟩ | hf
  · by_cases ha : x a = i
    · simp only [ha, if_pos] at hf
      cases hf
      exact ha
    · simp [ha] at hf
  · cases hf

theorem batchLastK_isSome_iff {T : Type} (x : T → JSId) (ds : List T) (k : String) :
    (batchLastK x ds k).isSome = true ↔ ∃ d ∈ ds, (x d).toKey = k := by
  constructor
  · intro h
    cases hb : batchLastK x ds k with
    | none => rw [hb] at h; cases h
    | some d =>
      rcases foldOr_extract _ ds none d hb with ⟨a, ha, hf⟩ | hf
      · by_cases hak : (x a).toKey = k
        · exact ⟨a, ha, hak⟩
        · simp [hak] at hf
      · cases hf
  · rintro ⟨d, hd, hk⟩
    rw [← hk]
    exact batchLastK_isSome_of_mem x hd

theorem batchLastK_eq_none {T : Type} (x : T → JSId) (ds : List T) (k : String)
    (h : ∀ d ∈ ds, (x d).toKey ≠ k) : batchLastK x ds k = none := by
  cases hb : batchLastK x ds k with
  | none => rfl
  | some d =>
    have : (batchLastK x ds k).isSome = true := by rw [hb]; rfl
    rcases (batchLastK_isSome_iff x ds k).mp this with ⟨d', hd', hk'⟩
    exact absurd hk' (h d' hd')

theorem batchLastK_eq_batchLast {T : Type} (x : T → JSId) (ds : List T) (i : JSId)
    (h : ∀ d ∈ ds, ((x d).toKey = i.toKey ↔ x d = i)) :
    batchLastK x ds i.toKey = batchLast x ds i := by
  induction ds with
  | nil => rfl
  | cons d rest ih =>
    rw [batchLastK, batchLast, foldOr_cons, foldOr_cons, foldOr_acc, ← batchLastK,
      foldOr_acc, ← batchLast, ih (fun d' hd' => h d' (List.mem_cons_of_mem d hd'))]
    have hd := h d (List.mem_cons_self d rest)
    by_cases hc : x d = i
    · simp [hc, hd.mpr hc]
    · have : ¬ (x d).toKey = i.toKey := fun hk => hc (hd.mp hk)
      simp [hc, this]

theorem lastAdded_extract {T : Type} (x : T → JSId) (ops : List (Op T)) (i : JSId)
    (acc : Option T) (d : T) (hacc : ∀ d', acc = some d' → x d' = i)
    (h : lastAdded x acc ops i = some d) : x d = i := by
  induction ops generalizing acc with
  | nil => exact hacc d h
  | cons op rest ih =>
    refine ih (opLast x i acc op) ?_ h
    intro d' hd'
    cases op with
    | add d0 =>
      by_cases hc : x d0 = i
      · simp only [opLast, hc, if_pos] at hd'
        cases hd'
        exact hc
      · simp only [opLast, hc, if_neg, not_false_iff] at hd'
        exact hacc d' hd'
    | addAll ds =>
      simp only [opLast] at hd'
      cases hb : batchLast x ds i with
      | some d0 =>
        rw [hb] at hd'
        cases hd'
        exact batchLast_extract x ds i d' hb
      | none =>
        rw [hb] at hd'
        exact hacc d' hd'
    | remove d0 => exact hacc d' hd'
    | removeById j => exact hacc d' hd'
    | removeAllClear => exact hacc d' hd'
    | removeAllDocs ds ign => exact hacc d' hd'

theorem runOps_append {T : Type} (x : T → JSId) (e : Engine T) (l1 l2 : List (Op T)) :
    runOps x e (l1 ++ l2) = runOps x (runOps x e l1) l2 := by
  induction l1 generalizing e with
  | nil => rfl
  | cons op rest ih => simp [runOps, ih]

theorem opsOk_append {T : Type} (x : T → JSId) (e : Engine T) (l1 l2 : List (Op T)) :
    opsOk x e (l1 ++ l2) = (opsOk x e l1 && opsOk x (runOps x e l1) l2) := by
  induction l1 generalizing e with
  | nil => simp [opsOk, runOps]
  | cons op rest ih => simp [opsOk, runOps, ih, Bool.and_assoc]

theorem opsIds_append {T : Type} (x : T → JSId) (l1 l2 : List (Op T)) :
    opsIds x (l1 ++ l2) = opsIds x l1 ++ opsIds x l2 := by
  simp [opsIds]

theorem opsIds_single {T : Type} (x : T → JSId) (op : Op T) :
    opsIds x [op] = opIds x op := by
  simp [opsIds]

theorem lastAdded_append {T : Type} (x : T → JSId) (acc : Option T)
    (l1 l2 : List (Op T)) (i : JSId) :
    lastAdded x acc (l1 ++ l2) i = lastAdded x (lastAdded x acc l1 i) l2 i := by
  simp [lastAdded, List.foldl_append]

theorem lastAdded_single {T : Type} (x : T → JSId) (acc : Option T) (op : Op T)
    (i : JSId) : lastAdded x acc [op] i = opLast x i acc op := rfl

theorem removeAllDocs_eq {T : Type} (x : T → JSId) (e : Engine T) (ds : List T)
    (ign : Bool) :
    removeAllDocs x e ds ign =
      (match indexRemoveMany e.index ((removeAllTargets x e ds ign).map x) with
       | (idx, none) =>
         ({ e with index := idx,
                   documentById := mirrorDeleteMany e.documentById
                     ((removeAllTargets x e ds ign).map fun d => (x d).toKey) }, none)
       | (idx, some err) => ({ e with index := idx }, some err)) := rfl

theorem indexAddAll_ne_notFound (idx is : List JSId) :
    (indexAddAll idx is).2 ≠ some Err.notFound := by
  induction is generalizing idx with
  | nil => simp [indexAddAll]
  | cons i rest ih =>
    by_cases h : i ∈ idx
    · simp [indexAddAll, indexAdd, h]
    · simpa [indexAddAll, indexAdd, h] using ih (idx ++ [i])

theorem indexRemoveMany_ne_notFound (idx is : List JSId) :
    (indexRemoveMany idx is).2 ≠ some Err.notFound := by
  induction is generalizing idx with
  | nil => simp [indexRemoveMany]
  | cons i rest ih =>
    by_cases h : i ∈ idx
    · simpa [indexRemoveMany, indexRemove, h] using ih (idx.erase i)
    · simp [indexRemoveMany, indexRemove, h]

theorem batchLast_mem {T : Type} (x : T → JSId) (ds : List T) (i : JSId) (d : T)
    (h : batchLast x ds i = some d) : d ∈ ds ∧ x d = i := by
  rcases foldOr_extract _ ds none d h with ⟨a, ha, hf⟩ | hf
  · by_cases hc : x a = i
    · simp only [hc, if_pos] at hf
      cases hf
      exact ⟨ha, hc⟩
    · simp [hc] at hf
  · cases hf

/-- Removing one identity `j` from the index together with its mirror key
preserves the coherence facts, provided every identity in scope has an
unambiguous string key. -/
theorem erase_delete_inv {T : Type} (e : Engine T)
    (W : List JSId) (L : JSId → Option T) (j : JSId)
    (hinj : ∀ a ∈ W, ∀ b ∈ W, a.toKey = b.toKey → a = b)
    (hUW : ∀ i ∈ e.index, i ∈ W) (hjW : j ∈ W)
    (hnd : e.index.Nodup)
    (hkey : ∀ k, mirrorHasKey e.documentById k = true ↔ ∃ i ∈ e.index, i.toKey = k)
    (hget : ∀ i ∈ e.index, mirrorGet e.documentById i.toKey = L i) :
    (e.index.erase j).Nodup ∧
    (∀ k, mirrorHasKey (mirrorDelete e.documentById j.toKey) k = true ↔
      ∃ i ∈ e.index.erase j, i.toKey = k) ∧
    (∀ i ∈ e.index.erase j, mirrorGet (mirrorDelete e.documentById j.toKey) i.toKey
      = L i) := by
  refine ⟨hnd.erase j, ?_, ?_⟩
  · intro k
    rw [mirrorHasKey_iff_isSome, mirrorGet_delete]
    by_cases hk : k = j.toKey
    · subst hk
      rw [if_pos rfl]
      constructor
      · intro hc
        simp at hc
      · rintro ⟨i, hi, hik⟩
        obtain ⟨hij, hi'⟩ := hnd.mem_erase_iff.mp hi
        exact absurd (hinj i (hUW i hi') j hjW hik) hij
    · rw [if_neg hk, ← mirrorHasKey_iff_isSome, hkey k]
      constructor
      · rintro ⟨i, hi, hik⟩
        have hij : i ≠ j := fun hc => hk (by rw [← hik, hc])
        exact ⟨i, hnd.mem_erase_iff.mpr ⟨hij, hi⟩, hik⟩
      · rintro ⟨i, hi, hik⟩
        exact ⟨i, (hnd.mem_erase_iff.mp hi).2, hik⟩
  · intro i hi
    obtain ⟨hij, hi'⟩ := hnd.mem_erase_iff.mp hi
    rw [mirrorGet_delete]
    have hk : ¬ i.toKey = j.toKey := fun hc => hij (hinj i (hUW i hi') j hjW hc)
    rw [if_neg hk]
    exact hget i hi'

/-- One caller-level operation preserves the coherence facts: the index ids
stay inside the id scope, the index stays duplicate-free, the mirror keys are
exactly the string coercions of the index ids, and each indexed id's mirror
entry is its last-added document. -/
theorem coherence_step {T : Type} (x : T → JSId) (e : Engine T) (op : Op T)
    (U : List JSId) (L : JSId → Option T)
    (hinj : ∀ a ∈ U ++ opIds x op, ∀ b ∈ U ++ opIds x op, a.toKey = b.toKey → a = b)
    (hok : stepOk (runOp x e op).2 = true)
    (hU : ∀ i ∈ e.index, i ∈ U)
    (hnd : e.index.Nodup)
    (hkey : ∀ k, mirrorHasKey e.documentById k = true ↔ ∃ i ∈ e.index, i.toKey = k)
    (hget : ∀ i ∈ e.index, mirrorGet e.documentById i.toKey = L i)
    (hLx : ∀ i d, L i = some d → x d = i) :
    (∀ i ∈ (runOp x e op).1.index, i ∈ U ++ opIds x op) ∧
    (runOp x e op).1.index.Nodup ∧
    (∀ k, mirrorHasKey (runOp x e op).1.documentById k = true ↔
      ∃ i ∈ (runOp x e op).1.index, i.toKey = k) ∧
    (∀ i ∈ (runOp x e op).1.index,
      mirrorGet (runOp x e op).1.documentById i.toKey = opLast x i (L i) op) := by
  have hUW : ∀ i ∈ e.index, i ∈ U ++ opIds x op := fun i hi =>
    List.mem_append.mpr (Or.inl (hU i hi))
  cases op with
  | add d =>
    have hxdW : x d ∈ U ++ opIds x (Op.add d) :=
      List.mem_append.mpr (Or.inr (by simp [opIds]))
    have hmem : x d ∉ e.index := by
      intro hc
      rw [show runOp x e (Op.add d) = add x e d from rfl, add_failure x e d hc] at hok
      simp [stepOk] at hok
    rw [show runOp x e (Op.add d) = add x e d from rfl, add_success x e d hmem]
    simp only []
    refine ⟨?_, ?_, ?_, ?_⟩
    · intro i hi
      rcases List.mem_append.mp hi with h1 | h1
      · exact List.mem_append.mpr (Or.inl (hU i h1))
      · exact List.mem_append.mpr (Or.inr (by simpa [opIds] using h1))
    · rw [List.nodup_append]
      refine ⟨hnd, List.nodup_singleton _, ?_⟩
      intro a ha hb
      rw [List.mem_singleton] at hb
      subst hb
      exact hmem ha
    · intro k
      rw [mirrorHasKey_iff_isSome, mirrorGet_set]
      by_cases hk : k = (x d).toKey
      · rw [if_pos hk]
        constructor
        · intro _
          exact ⟨x d, List.mem_append.mpr (Or.inr (List.mem_singleton_self _)), hk.symm⟩
        · intro _
          rfl
      · rw [if_neg hk, ← mirrorHasKey_iff_isSome, hkey k]
        constructor
        · rintro ⟨i, hi, hik⟩
          exact ⟨i, List.mem_append.mpr (Or.inl hi), hik⟩
        · rintro ⟨i, hi, hik⟩
          rcases List.mem_append.mp hi with h1 | h1
          · exact ⟨i, h1, hik⟩
          · rw [List.mem_singleton] at h1
            subst h1
            exact absurd hik (fun hc => hk hc.symm)
    · intro i hi
      simp only [opLast]
      rw [mirrorGet_set]
      rcases List.mem_append.mp hi with h1 | h1
      · have hne : ¬ x d = i := fun hc => hmem (hc ▸ h1)
        have hkne : ¬ i.toKey = (x d).toKey := fun hkeq =>
          hne (hinj (x d) hxdW i (List.mem_append.mpr (Or.inl (hU i h1))) hkeq.symm)
        rw [if_neg hkne, if_neg hne]
        exact hget i h1
      · rw [List.mem_singleton] at h1
        subst h1
        rw [if_pos rfl, if_pos rfl]
  | addAll ds =>
    have herr : (indexAddAll e.index (ds.map x)).2 = none := by
      rw [show runOp x e (Op.addAll ds) = addAll x e ds from rfl, addAll_eq] at hok
      simp only [] at hok
      cases h2 : (indexAddAll e.index (ds.map x)).2 with
      | none => rfl
      | some err =>
        rw [h2] at hok
        cases err with
        | notFound => exact absurd h2 (indexAddAll_ne_notFound _ _)
        | duplicateAdd => simp [stepOk] at hok
        | removeMissing => simp [stepOk] at hok
    rw [show runOp x e (Op.addAll ds) = addAll x e ds from rfl, addAll_eq]
    obtain ⟨hidx1, hidx2, hidx3⟩ := indexAddAll_ok herr
    simp only []
    rw [hidx1]
    refine ⟨?_, ?_, ?_, ?_⟩
    · intro i hi
      rcases List.mem_append.mp hi with h1 | h1
      · exact List.mem_append.mpr (Or.inl (hU i h1))
      · exact List.mem_append.mpr (Or.inr (by simpa [opIds] using h1))
    · rw [List.nodup_append]
      exact ⟨hnd, hidx2, fun a ha hb => hidx3 a hb ha⟩
    · intro k
      rw [mirrorHasKey_iff_isSome, mirrorGet_merge_gather, optOr_isSome]
      simp only [Bool.or_eq_true]
      constructor
      · intro hor
        rcases hor with h1 | h1
        · rcases (batchLastK_isSome_iff x ds k).mp h1 with ⟨d, hd, hdk⟩
          exact ⟨x d, List.mem_append.mpr (Or.inr (List.mem_map_of_mem x hd)), hdk⟩
        · rcases (hkey k).mp ((mirrorHasKey_iff_isSome _ _).mpr h1) with ⟨i, hi, hik⟩
          exact ⟨i, List.mem_append.mpr (Or.inl hi), hik⟩
      · rintro ⟨i, hi, hik⟩
        rcases List.mem_append.mp hi with h1 | h1
        · refine Or.inr ?_
          rw [← mirrorHasKey_iff_isSome]
          exact (hkey k).mpr ⟨i, h1, hik⟩
        · rcases List.mem_map.mp h1 with ⟨d, hd, rfl⟩
          exact Or.inl ((batchLastK_isSome_iff x ds k).mpr ⟨d, hd, hik⟩)
    · intro i hi
      simp only [opLast]
      rw [mirrorGet_merge_gather]
      rcases List.mem_append.mp hi with h1 | h1
      · have hnotin : i ∉ ds.map x := fun hc => hidx3 i hc h1
        have hbk : batchLastK x ds i.toKey = none := by
          apply batchLastK_eq_none
          intro d hd hkeq
          have hdi : x d = i := hinj (x d)
            (List.mem_append.mpr (Or.inr (by simpa [opIds] using List.mem_map_of_mem x hd)))
            i (List.mem_append.mpr (Or.inl (hU i h1))) hkeq
          exact hnotin (hdi ▸ List.mem_map_of_mem x hd)
        have hbl : batchLast x ds i = none := by
          cases hb : batchLast x ds i with
          | none => rfl
          | some d =>
            obtain ⟨hd, hxd⟩ := batchLast_mem x ds i d hb
            exact absurd (hxd ▸ List.mem_map_of_mem x hd) hnotin
        rw [hbk, hbl, optOr_none, optOr_none]
        exact hget i h1
      · rcases List.mem_map.mp h1 with ⟨d0, hd0, rfl⟩
        have hcond : ∀ d ∈ ds, ((x d).toKey = (x d0).toKey ↔ x d = x d0) := by
          intro d hd
          constructor
          · intro hkeq
            exact hinj (x d)
              (List.mem_append.mpr (Or.inr (by simpa [opIds] using List.mem_map_of_mem x hd)))
              (x d0)
              (List.mem_append.mpr (Or.inr (by simpa [opIds] using List.mem_map_of_mem x hd0)))
              hkeq
          · intro heq
            rw [heq]
        rw [batchLastK_eq_batchLast x ds (x d0) hcond]
        cases hb : batchLast x ds (x d0) with
        | none =>
          exfalso
          have hsome : (batchLast x ds (x d0)).isSome = true := by
            rw [← batchLastK_eq_batchLast x ds (x d0) hcond]
            exact (batchLastK_isSome_iff x ds (x d0).toKey).mpr ⟨d0, hd0, rfl⟩
          rw [hb] at hsome
          simp at hsome
        | some v =>
          rw [optOr_some, optOr_some]
  | remove d =>
    have hxdW : x d ∈ U ++ opIds x (Op.remove d) :=
      List.mem_append.mpr (Or.inr (by simp [opIds]))
    have hmem : x d ∈ e.index := by
      by_cases hc : x d ∈ e.index
      · exact hc
      · rw [show runOp x e (Op.remove d) = remove x e d from rfl,
          remove_failure x e d hc] at hok
        simp [stepOk] at hok
    rw [show runOp x e (Op.remove d) = remove x e d from rfl, remove_success x e d hmem]
    simp only []
    obtain ⟨h1, h2, h3⟩ := erase_delete_inv e (U ++ opIds x (Op.remove d)) L (x d)
      hinj hUW hxdW hnd hkey hget
    exact ⟨fun i hi => List.mem_append.mpr (Or.inl (hU i (List.mem_of_mem_erase hi))),
      h1, h2, fun i hi => h3 i hi⟩
  | removeById j =>
    have hjW : j ∈ U ++ opIds x (Op.removeById j) :=
      List.mem_append.mpr (Or.inr (by simp [opIds]))
    cases hg : mirrorGet e.documentById j.toKey with
    | none =>
      rw [show runOp x e (Op.removeById j) = removeById x e j from rfl,
        removeById_absent x e j hg]
      simp only []
      exact ⟨hUW, hnd, hkey, fun i hi => hget i hi⟩
    | some d =>
      have hkmem : mirrorHasKey e.documentById j.toKey = true := by
        rw [mirrorHasKey_iff_isSome, hg]
        rfl
      obtain ⟨i0, hi0, hik0⟩ := (hkey _).mp hkmem
      have hi0j : i0 = j :=
        hinj i0 (List.mem_append.mpr (Or.inl (hU i0 hi0))) j hjW hik0
      subst hi0j
      have hLj : L i0 = some d := by
        rw [← hget i0 hi0]
        exact hg
      have hxd : x d = i0 := hLx i0 d hLj
      have hmem : x d ∈ e.index := by
        rw [hxd]
        exact hi0
      rw [show runOp x e (Op.removeById i0) = removeById x e i0 from rfl,
        removeById_present_mem x e i0 d hg hmem, hxd]
      simp only []
      obtain ⟨h1, h2, h3⟩ := erase_delete_inv e (U ++ opIds x (Op.removeById i0)) L i0
        hinj hUW hjW hnd hkey hget
      exact ⟨fun i hi => List.mem_append.mpr (Or.inl (hU i (List.mem_of_mem_erase hi))),
        h1, h2, fun i hi => h3 i hi⟩
  | removeAllClear =>
    rw [show runOp x e Op.removeAllClear = removeAllClear e from rfl]
    simp only [removeAllClear]
    refine ⟨fun i hi => absurd hi (List.not_mem_nil i), List.nodup_nil, fun k => ?_,
      fun i hi => absurd hi (List.not_mem_nil i)⟩
    constructor
    · intro hc
      simp [mirrorHasKey] at hc
    · rintro ⟨i, hi, -⟩
      exact absurd hi (List.not_mem_nil i)
  | removeAllDocs ds ign =>
    have hrun : runOp x e (Op.removeAllDocs ds ign) = removeAllDocs x e ds ign := rfl
    have hsub : ∀ d ∈ removeAllTargets x e ds ign, d ∈ ds := by
      cases ign with
      | false => intro d hd; exact hd
      | true => intro d hd; exact List.mem_of_mem_filter hd
    have herr : (indexRemoveMany e.index ((removeAllTargets x e ds ign).map x)).2
        = none := by
      rw [hrun, removeAllDocs_eq] at hok
      rcases hh : indexRemoveMany e.index ((removeAllTargets x e ds ign).map x)
        with ⟨idx, err⟩
      rw [hh] at hok
      cases err with
      | none => rfl
      | some er =>
        cases er with
        | notFound =>
          have hnf := indexRemoveMany_ne_notFound e.index
            ((removeAllTargets x e ds ign).map x)
          rw [hh] at hnf
          exact absurd rfl hnf
        | duplicateAdd => simp [stepOk] at hok
        | removeMissing => simp [stepOk] at hok
    obtain ⟨hmemiff, hnd', hall⟩ := indexRemoveMany_ok hnd herr
    rw [hrun, removeAllDocs_eq]
    rcases hh : indexRemoveMany e.index ((removeAllTargets x e ds ign).map x)
      with ⟨idx, err⟩
    rw [hh] at herr hmemiff hnd'
    have herr' : err = none := herr
    subst herr'
    simp only []
    simp only [] at hmemiff hnd' hall
    refine ⟨?_, hnd', ?_, ?_⟩
    · intro i hi
      exact List.mem_append.mpr (Or.inl (hU i ((hmemiff i).mp hi).1))
    · intro k
      rw [mirrorHasKey_iff_isSome, mirrorGet_deleteMany]
      by_cases hkmem : k ∈ (removeAllTargets x e ds ign).map (fun d => (x d).toKey)
      · rw [if_pos hkmem]
        constructor
        · intro hc
          simp at hc
        · rintro ⟨i, hi, hik⟩
          obtain ⟨himem, hinot⟩ := (hmemiff i).mp hi
          rcases List.mem_map.mp hkmem with ⟨d0, hd0, hk0⟩
          have hieq : i = x d0 := hinj i (List.mem_append.mpr (Or.inl (hU i himem)))
            (x d0) (List.mem_append.mpr (Or.inr (by
              simpa [opIds] using List.mem_map_of_mem x (hsub d0 hd0))))
            (by rw [hik, ← hk0])
          exact absurd (hieq ▸ List.mem_map_of_mem x hd0) hinot
      · rw [if_neg hkmem, ← mirrorHasKey_iff_isSome, hkey k]
        constructor
        · rintro ⟨i, hi, hik⟩
          refine ⟨i, (hmemiff i).mpr ⟨hi, ?_⟩, hik⟩
          intro hc
          refine hkmem ?_
          rcases List.mem_map.mp hc with ⟨d0, hd0, hk0⟩
          refine List.mem_map.mpr ⟨d0, hd0, ?_⟩
          rw [hk0]
          exact hik
        · rintro ⟨i, hi, hik⟩
          exact ⟨i, ((hmemiff i).mp hi).1, hik⟩
    · intro i hi
      obtain ⟨himem, hinot⟩ := (hmemiff i).mp hi
      rw [mirrorGet_deleteMany]
      have hknot : i.toKey ∉ (removeAllTargets x e ds ign).map (fun d => (x d).toKey) := by
        intro hc
        rcases List.mem_map.mp hc with ⟨d0, hd0, hk0⟩
        have hieq : i = x d0 := hinj i (List.mem_append.mpr (Or.inl (hU i himem)))
          (x d0) (List.mem_append.mpr (Or.inr (by
            simpa [opIds] using List.mem_map_of_mem x (hsub d0 hd0)))) hk0.symm
        exact hinot (hieq ▸ List.mem_map_of_mem x hd0)
      rw [if_neg hknot]
      exact hget i himem

/-- The coherence facts hold after any failure-free run from the empty
engine, with `lastAdded` computed over the run. -/
theorem coherence_run {T : Type} (x : T → JSId) (ops : List (Op T))
    (hinj : ∀ a ∈ opsIds x ops, ∀ b ∈ opsIds x ops, a.toKey = b.toKey → a = b)
    (hok : opsOk x (emptyEngine T) ops = true) :
    (∀ i ∈ (runOps x (emptyEngine T) ops).index, i ∈ opsIds x ops) ∧
    (runOps x (emptyEngine T) ops).index.Nodup ∧
    (∀ k, mirrorHasKey (runOps x (emptyEngine T) ops).documentById k = true ↔
      ∃ i ∈ (runOps x (emptyEngine T) ops).index, i.toKey = k) ∧
    (∀ i ∈ (runOps x (emptyEngine T) ops).index,
      mirrorGet (runOps x (emptyEngine T) ops).documentById i.toKey
        = lastAdded x none ops i) := by
  induction ops using List.reverseRecOn with
  | nil =>
    refine ⟨fun i hi => absurd hi (List.not_mem_nil i), List.nodup_nil, fun k => ?_,
      fun i hi => absurd hi (List.not_mem_nil i)⟩
    constructor
    · intro hc
      simp [runOps, emptyEngine, mirrorHasKey] at hc
    · rintro ⟨i, hi, -⟩
      exact absurd hi (List.not_mem_nil i)
  | append_singleton ops op ih =>
    have hsub : ∀ a ∈ opsIds x ops, a ∈ opsIds x (ops ++ [op]) := by
      intro a ha
      rw [opsIds_append]
      exact List.mem_append.mpr (Or.inl ha)
    have hinj0 : ∀ a ∈ opsIds x ops, ∀ b ∈ opsIds x ops, a.toKey = b.toKey → a = b :=
      fun a ha b hb => hinj a (hsub a ha) b (hsub b hb)
    have hok2 := hok
    rw [opsOk_append, Bool.and_eq_true] at hok2
    obtain ⟨hok0, hok1⟩ := hok2
    have hstep : stepOk (runOp x (runOps x (emptyEngine T) ops) op).2 = true := by
      simpa [opsOk] using hok1
    obtain ⟨I1, I2, I3, I4⟩ := ih hinj0 hok0
    have hconv : ∀ a, a ∈ opsIds x ops ++ opIds x op → a ∈ opsIds x (ops ++ [op]) := by
      intro a ha
      rw [opsIds_append, opsIds_single]
      exact ha
    have hinj' : ∀ a ∈ opsIds x ops ++ opIds x op, ∀ b ∈ opsIds x ops ++ opIds x op,
        a.toKey = b.toKey → a = b :=
      fun a ha b hb => hinj a (hconv a ha) b (hconv b hb)
    have hLx : ∀ i d, lastAdded x none ops i = some d → x d = i := fun i d hd =>
      lastAdded_extract x ops i none d (fun d' hd' => by cases hd') hd
    obtain ⟨J1, J2, J3, J4⟩ := coherence_step x (runOps x (emptyEngine T) ops) op
      (opsIds x ops) (fun i => lastAdded x none ops i) hinj' hstep I1 I2 I3 I4 hLx
    rw [runOps_append,
      show runOps x (runOps x (emptyEngine T) ops) [op]
        = (runOp x (runOps x (emptyEngine T) ops) op).1 from rfl]
    refine ⟨?_, J2, J3, ?_⟩
    · intro i hi
      rw [opsIds_append, opsIds_single]
      exact J1 i hi
    · intro i hi
      rw [lastAdded_append, lastAdded_single]
      exact J4 i hi

/-! ### Claim theorems -/

/-- C9: `clearSearch` (the spec's `clearResults`) resets only the result
projection state (`searchResults` and `rawResults`) and `clearSuggestions`
resets only the suggestion projection state; neither operation modifies the
Mirror Store, the External Index Service, or any other component of the
state. -/
theorem clear_operations_frame {T : Type} (e : Engine T) :
    clearSearch e = { e with searchResults := none, rawResults := none } ∧
    clearSuggestions e = { e with suggestions := none } ∧
    (clearSearch e).documentById = e.documentById ∧
    (clearSearch e).index = e.index ∧
    (clearSearch e).suggestions = e.suggestions ∧
    (clearSearch e).isIndexing = e.isIndexing ∧
    (clearSuggestions e).documentById = e.documentById ∧
    (clearSuggestions e).index = e.index ∧
    (clearSuggestions e).rawResults = e.rawResults ∧
    (clearSuggestions e).searchResults = e.searchResults ∧
    (clearSuggestions e).isIndexing = e.isIndexing :=
  ⟨rfl, rfl, rfl, rfl, rfl, rfl, rfl, rfl, rfl, rfl, rfl⟩

/-- C2 counterexample: when the asynchronous chunked add rejects, the promise
chain `miniSearch.addAllAsync(...).then(() => setIsIndexing(false))` never
runs its callback, so the Indexing State flag is left `true` — the claim that
it is set back to false in the failure case is false on the code (the
rejection itself does propagate). -/
theorem addAllAsync_failure_flag_counterexample :
    (addAllAsyncSettle
        (addAllAsyncStart idExtract (emptyEngine JSId) [JSId.num 1])
        [] Settle.failure).1.isIndexing = true ∧
    (addAllAsyncSettle
        (addAllAsyncStart idExtract (emptyEngine JSId) [JSId.num 1])
        [] Settle.failure).2 = Settle.failure :=
  ⟨rfl, rfl⟩

/-- C2 (amended): every call to `addAllAsync` sets the Indexing State to true
before control returns to the caller; when the asynchronous index add
fulfills, the flag is reset to false; when it rejects, the rejection
propagates to the caller of `addAllAsync` but the flag is left `true`
(there is no rejection handler in the promise chain). -/
theorem addAllAsync_flag_lifecycle {T : Type} (x : T → JSId) (e : Engine T)
    (documents : List T) (idx' : List JSId) :
    (addAllAsyncStart x e documents).isIndexing = true ∧
    (addAllAsyncSettle (addAllAsyncStart x e documents) idx'
        Settle.success).1.isIndexing = false ∧
    (addAllAsyncSettle (addAllAsyncStart x e documents) idx'
        Settle.success).2 = Settle.success ∧
    (addAllAsyncSettle (addAllAsyncStart x e documents) idx'
        Settle.failure).1.isIndexing = true ∧
    (addAllAsyncSettle (addAllAsyncStart x e documents) idx'
        Settle.failure).2 = Settle.failure :=
  ⟨rfl, rfl, rfl, rfl, rfl⟩

/-- C5: `search` stores the index's ordered hit sequence verbatim as
`rawResults`, and as `searchResults` the hit-by-hit mirror materialization:
the same length and order, each slot the mirror entry of the hit's
string-coerced identity, and an identity absent from the mirror gives an
undefined (`none`) slot rather than a failure. -/
theorem search_materializes_in_order {T : Type} (e : Engine T) (results : List Hit) :
    (search e results).rawResults = some results ∧
    (search e results).searchResults =
      some (results.map (fun h => mirrorGet e.documentById h.id.toKey)) ∧
    (results.map (fun h => mirrorGet e.documentById h.id.toKey)).length
      = results.length ∧
    (∀ n : Nat, (results.map (fun h => mirrorGet e.documentById h.id.toKey))[n]? =
      (results[n]?).map (fun h => mirrorGet e.documentById h.id.toKey)) ∧
    (∀ h ∈ results, mirrorHasKey e.documentById h.id.toKey = false →
      mirrorGet e.documentById h.id.toKey = none) := by
  refine ⟨rfl, rfl, by simp, fun n => by simp, fun h _ hk => ?_⟩
  cases hg : mirrorGet e.documentById h.id.toKey with
  | none => rfl
  | some v =>
    exact absurd ((mirrorHasKey_iff_isSome e.documentById h.id.toKey).mpr (by simp [hg]))
      (by simp [hk])

/-- C5 witness: a concrete search whose first hit is mirrored and whose
second hit's identity is absent from the mirror. -/
theorem search_materializes_in_order_witness :
    (search sampleEngine [⟨JSId.num 1, 10⟩, ⟨JSId.str "a", 3⟩]).rawResults =
      some [⟨JSId.num 1, 10⟩, ⟨JSId.str "a", 3⟩] ∧
    mirrorGet sampleEngine.documentById (JSId.str "a").toKey = none :=
  ⟨(search_materializes_in_order sampleEngine [⟨JSId.num 1, 10⟩, ⟨JSId.str "a", 3⟩]).1,
   (search_materializes_in_order sampleEngine
      [⟨JSId.num 1, 10⟩, ⟨JSId.str "a", 3⟩]).2.2.2.2
     ⟨JSId.str "a", 3⟩ (by decide) (by decide)⟩

/-- C6: `addAllAsync` performs the same identity-to-document mirror merge as
`addAll`, eagerly and synchronously before the asynchronous index population
begins (the index is untouched by the synchronous phase), so every identity
of the batch is already mapped in the mirror at the moment the pending
completion is returned. -/
theorem addAllAsync_eager_mirror_merge {T : Type} (x : T → JSId) (e : Engine T)
    (documents : List T) :
    (addAllAsyncStart x e documents).documentById
      = (addAll x e documents).1.documentById ∧
    (addAllAsyncStart x e documents).documentById
      = mirrorMerge e.documentById (gatherById x documents) ∧
    (addAllAsyncStart x e documents).index = e.index ∧
    ∀ d ∈ documents,
      mirrorHasKey (addAllAsyncStart x e documents).documentById (x d).toKey = true := by
  refine ⟨?_, rfl, rfl, fun d hd => ?_⟩
  · rw [addAll_eq]
    rfl
  rw [mirrorHasKey_iff_isSome]
  show (mirrorGet (mirrorMerge e.documentById (gatherById x documents))
    (x d).toKey).isSome = true
  rw [mirrorGet_merge_gather, optOr_isSome, batchLastK_isSome_of_mem x hd]
  simp

/-- C6 witness: the batch identity 7 is mirrored as soon as the synchronous
phase of `addAllAsync` finishes. -/
theorem addAllAsync_eager_mirror_merge_witness :
    mirrorHasKey (addAllAsyncStart idExtract (emptyEngine JSId)
      [JSId.num 7]).documentById (JSId.num 7).toKey = true :=
  (addAllAsync_eager_mirror_merge idExtract (emptyEngine JSId) [JSId.num 7]).2.2.2
    (JSId.num 7) (by decide)

/-- C7: `removeAll()` with no documents clears the index and empties the
Mirror Store entirely; `removeAll(documents, {ignoreIfMissing: true})` first
drops every document whose string-coerced identity is not a current mirror
key and then behaves exactly like the plain variant on the remaining
documents (so an absent document is a no-op raising no error); the plain
variant, when the index removal succeeds, deletes exactly the given
identities from the Mirror Store. -/
theorem removeAll_semantics {T : Type} (x : T → JSId) (e : Engine T)
    (documents : List T) :
    removeAllClear e = ({ e with index := [], documentById := [] }, none) ∧
    removeAllDocs x e documents true =
      removeAllDocs x e
        (documents.filter (fun d => mirrorHasKey e.documentById (x d).toKey)) false ∧
    ((removeAllDocs x e documents false).2 = none →
      ∀ k, mirrorGet (removeAllDocs x e documents false).1.documentById k =
        if k ∈ documents.map (fun d => (x d).toKey) then none
        else mirrorGet e.documentById k) := by
  refine ⟨rfl, rfl, fun hok k => ?_⟩
  rw [removeAllDocs_plain] at hok ⊢
  rcases h : indexRemoveMany e.index (documents.map x) with ⟨idx, err⟩
  simp only [h] at hok ⊢
  cases err with
  | some e' => simp at hok
  | none =>
    simp only []
    rw [mirrorGet_deleteMany]

/-- C7 witness: removing the one indexed document deletes its mirror key. -/
theorem removeAll_semantics_witness :
    mirrorGet (removeAllDocs idExtract sampleEngine
      [JSId.num 1] false).1.documentById "1" = none := by
  have h := (removeAll_semantics idExtract sampleEngine [JSId.num 1]).2.2
    (by decide) "1"
  simpa using h

/-- C10: the Mirror Store is a string-keyed object, so identities are coerced
to strings as mirror keys: two documents whose identities share a string
representation are stored under one and the same mirror entry — the later
`add` (and the later entry of a `gatherById` batch) silently overwrites the
earlier document — even though the External Index Service holds the two
identities as distinct entries. -/
theorem mirror_key_string_coercion {T : Type} (x : T → JSId) (e : Engine T) (d1 d2 : T)
    (hkey : (x d1).toKey = (x d2).toKey) :
    mirrorGet ((add x (add x e d1).1 d2).1).documentById (x d1).toKey = some d2 ∧
    gatherById x [d1, d2] = [((x d2).toKey, d2)] ∧
    (x d1 ≠ x d2 → x d1 ∉ e.index → x d2 ∉ e.index →
      x d1 ∈ ((add x (add x e d1).1 d2).1).index ∧
      x d2 ∈ ((add x (add x e d1).1 d2).1).index) := by
  refine ⟨?_, ?_, ?_⟩
  · rw [add_documentById, mirrorGet_set, hkey]
    simp
  · simp [gatherById, mirrorSet, hkey]
  · intro hne h1 h2
    rw [add_success x e d1 h1]
    have h2' : x d2 ∉ e.index ++ [x d1] := by
      intro hc
      rcases List.mem_append.mp hc with hc1 | hc1
      · exact h2 hc1
      · exact hne (List.mem_singleton.mp hc1).symm
    rw [add_success x _ d2 h2']
    constructor <;> simp

/-- C10 witness: the number 1 and the string "1" collide on the mirror key
"1" (the later document wins) while the index keeps both identities. -/
theorem mirror_key_string_coercion_witness :
    mirrorGet ((add idExtract (add idExtract (emptyEngine JSId) (JSId.num 1)).1
        (JSId.str "1")).1).documentById (JSId.num 1).toKey = some (JSId.str "1") ∧
    JSId.num 1 ∈ ((add idExtract (add idExtract (emptyEngine JSId) (JSId.num 1)).1
        (JSId.str "1")).1).index ∧
    JSId.str "1" ∈ ((add idExtract (add idExtract (emptyEngine JSId) (JSId.num 1)).1
        (JSId.str "1")).1).index := by
  obtain ⟨h1, -, h3⟩ := mirror_key_string_coercion idExtract (emptyEngine JSId)
    (JSId.num 1) (JSId.str "1") (by decide)
  obtain ⟨h4, h5⟩ := h3 (by decide) (by decide) (by decide)
  exact ⟨h1, h4, h5⟩

/-- C4 counterexample: re-adding identity 1 with a new payload fails in the
index (duplicate identity), yet the Mirror Store is left holding the new
entry — the claim that the mirror is left without the new entry when the
index add fails is false on the code. -/
theorem add_no_rollback_counterexample :
    (add pairExtract (add pairExtract (emptyEngine (JSId × Int)) (JSId.num 1, 0)).1
        (JSId.num 1, 1)).2 = some Err.duplicateAdd ∧
    mirrorGet ((add pairExtract
        (add pairExtract (emptyEngine (JSId × Int)) (JSId.num 1, 0)).1
        (JSId.num 1, 1)).1).documentById "1" = some (JSId.num 1, 1) := by
  constructor <;> rfl

/-- C4 (amended): `add` writes the document into the Mirror Store under its
extracted identity before the index write, unconditionally; when the index
add fails the error propagates with the index unchanged, but the
already-performed mirror write is not rolled back — the mirror keeps the new
entry (the spec's documented partial-failure limitation). -/
theorem add_mirror_before_index {T : Type} (x : T → JSId) (e : Engine T) (d : T) :
    (add x e d).1.documentById = mirrorSet e.documentById (x d).toKey d ∧
    mirrorGet (add x e d).1.documentById (x d).toKey = some d ∧
    ((add x e d).2 ≠ none →
      (add x e d).1.index = e.index ∧ (add x e d).2 = some Err.duplicateAdd) := by
  refine ⟨add_documentById x e d, ?_, ?_⟩
  · rw [add_documentById, mirrorGet_set]
    simp
  · intro herr
    by_cases h : x d ∈ e.index
    · rw [add_failure x e d h]
      exact ⟨rfl, rfl⟩
    · rw [add_success x e d h] at herr ⊢
      exact absurd rfl herr

/-- C4 witness: at a duplicate add the failure branch of the amended claim is
exercised: the index is unchanged and the duplicate-add error is reported. -/
theorem add_mirror_before_index_witness :
    (add pairExtract (add pairExtract (emptyEngine (JSId × Int)) (JSId.num 1, 0)).1
        (JSId.num 1, 1)).1.index =
      ((add pairExtract (emptyEngine (JSId × Int)) (JSId.num 1, 0)).1).index ∧
    (add pairExtract (add pairExtract (emptyEngine (JSId × Int)) (JSId.num 1, 0)).1
        (JSId.num 1, 1)).2 = some Err.duplicateAdd :=
  (add_mirror_before_index pairExtract
    (add pairExtract (emptyEngine (JSId × Int)) (JSId.num 1, 0)).1
    (JSId.num 1, 1)).2.2 (by decide)

/-- C3: `removeById` of an identity with no mirror entry throws the NotFound
error and leaves the whole state — Mirror Store and index included —
unchanged; for a mirrored identity whose stored document extracts back to
the same string key, it behaves exactly like `remove` of the stored
document. -/
theorem removeById_notfound_contract {T : Type} (x : T → JSId) (e : Engine T) (i : JSId) :
    (mirrorGet e.documentById i.toKey = none →
      removeById x e i = (e, some Err.notFound)) ∧
    (∀ d, mirrorGet e.documentById i.toKey = some d → (x d).toKey = i.toKey →
      removeById x e i = remove x e d) := by
  refine ⟨removeById_absent x e i, fun d hd hk => ?_⟩
  by_cases hmem : x d ∈ e.index
  · rw [removeById_present_mem x e i d hd hmem, remove_success x e d hmem, hk]
  · rw [removeById_present_not_mem x e i d hd hmem, remove_failure x e d hmem]

/-- C3 witness: identity 2 was never added, so `removeById` raises NotFound
and changes nothing; identity 1 is mirrored, and `removeById 1` coincides
with `remove` of the stored document. -/
theorem removeById_notfound_contract_witness :
    removeById idExtract sampleEngine (JSId.num 2) =
      (sampleEngine, some Err.notFound) ∧
    removeById idExtract sampleEngine (JSId.num 1) =
      remove idExtract sampleEngine (JSId.num 1) :=
  ⟨(removeById_notfound_contract idExtract sampleEngine (JSId.num 2)).1 (by decide),
   (removeById_notfound_contract idExtract sampleEngine (JSId.num 1)).2
     (JSId.num 1) (by decide) (by decide)⟩

/-- C8 counterexample: when the batch index add fails partway (identity 1 is
already indexed, identity 2 is fresh), `addAll` has merged the whole batch
into the Mirror Store while the aborted loop of single `add` calls never
mirrors identity 2 — the resulting Mirror Store contents differ, so the
unconditional equivalence claimed for every list of documents is false on
the code. -/
theorem addAll_addEach_counterexample :
    (addAll pairExtract (add pairExtract (emptyEngine (JSId × Int)) (JSId.num 1, 0)).1
        [(JSId.num 1, 5), (JSId.num 2, 7)]).2 = some Err.duplicateAdd ∧
    mirrorHasKey (addAll pairExtract
        (add pairExtract (emptyEngine (JSId × Int)) (JSId.num 1, 0)).1
        [(JSId.num 1, 5), (JSId.num 2, 7)]).1.documentById "2" = true ∧
    mirrorHasKey (addEach pairExtract
        (add pairExtract (emptyEngine (JSId × Int)) (JSId.num 1, 0)).1
        [(JSId.num 1, 5), (JSId.num 2, 7)]).1.documentById "2" = false :=
  ⟨rfl, rfl, rfl⟩

/-- C8 (amended): whenever the batch index add raises no failure,
`addAll(documents)` is semantically equivalent to calling `add` on each
document in list order: the loop also raises no failure, and the resulting
Mirror Store contents (as a key-to-document mapping), External Index Service
contents and every remaining state component coincide — the only difference
being the single mirror-merge pass and the single batch index call.  (Under
an index failure the two can diverge, per the counterexample.) -/
theorem addAll_addEach_equiv {T : Type} (x : T → JSId) (e : Engine T) (ds : List T)
    (h : (addAll x e ds).2 = none) :
    (addEach x e ds).2 = none ∧
    (addEach x e ds).1.index = (addAll x e ds).1.index ∧
    (∀ k, mirrorGet (addEach x e ds).1.documentById k
        = mirrorGet (addAll x e ds).1.documentById k) ∧
    (addEach x e ds).1.rawResults = (addAll x e ds).1.rawResults ∧
    (addEach x e ds).1.searchResults = (addAll x e ds).1.searchResults ∧
    (addEach x e ds).1.suggestions = (addAll x e ds).1.suggestions ∧
    (addEach x e ds).1.isIndexing = (addAll x e ds).1.isIndexing := by
  have hidx : (indexAddAll e.index (ds.map x)).2 = none := by
    rw [addAll_eq] at h
    exact h
  have he := addEach_ok x e ds hidx
  have hall := addAll_eq x e ds
  obtain ⟨h1, -, -⟩ := indexAddAll_ok hidx
  rw [he, hall]
  refine ⟨rfl, by simp [h1], fun k => ?_, rfl, rfl, rfl, rfl⟩
  simp only []
  rw [mirrorGet_foldl_set, mirrorGet_merge_gather]

/-- C8 witness: a successful two-document batch, on which the iterated adds
produce the same index contents and the same mirror entry as the batch
variant. -/
theorem addAll_addEach_equiv_witness :
    (addEach pairExtract (emptyEngine (JSId × Int))
        [(JSId.num 1, 0), (JSId.num 2, 3)]).1.index =
      (addAll pairExtract (emptyEngine (JSId × Int))
        [(JSId.num 1, 0), (JSId.num 2, 3)]).1.index ∧
    mirrorGet (addEach pairExtract (emptyEngine (JSId × Int))
        [(JSId.num 1, 0), (JSId.num 2, 3)]).1.documentById "2" =
      mirrorGet (addAll pairExtract (emptyEngine (JSId × Int))
        [(JSId.num 1, 0), (JSId.num 2, 3)]).1.documentById "2" :=
  ⟨(addAll_addEach_equiv pairExtract (emptyEngine (JSId × Int))
      [(JSId.num 1, 0), (JSId.num 2, 3)] (by decide)).2.1,
   (addAll_addEach_equiv pairExtract (emptyEngine (JSId × Int))
      [(JSId.num 1, 0), (JSId.num 2, 3)] (by decide)).2.2.1 "2"⟩

/-- C1 counterexample: the sequence add {id: 1}, add {id: "1"},
remove {id: 1} makes no failing call to the External Index Service, yet
afterwards the index still holds the identity "1" while the Mirror Store no
longer has the key "1" (both identities coerced to the one mirror key, and
the removal deleted it): the claimed equality of the two identity sets is
false on the code. -/
theorem coherence_counterexample :
    opsOk idExtract (emptyEngine JSId)
      [Op.add (JSId.num 1), Op.add (JSId.str "1"), Op.remove (JSId.num 1)] = true ∧
    JSId.str "1" ∈ (runOps idExtract (emptyEngine JSId)
      [Op.add (JSId.num 1), Op.add (JSId.str "1"), Op.remove (JSId.num 1)]).index ∧
    mirrorHasKey (runOps idExtract (emptyEngine JSId)
      [Op.add (JSId.num 1), Op.add (JSId.str "1"),
        Op.remove (JSId.num 1)]).documentById (JSId.str "1").toKey = false :=
  ⟨rfl, by decide, rfl⟩

/-- C1 (amended): for every sequence of add, addAll, remove, removeById and
removeAll operations from a fresh engine in which no call to the External
Index Service fails, provided no two distinct identities of the sequence
coerce to the same string key, at the end of each operation the Mirror Store
keys are exactly the string coercions of the identities held by the External
Index Service, and each indexed identity's mirror entry is the last-added
document with that identity.  (Without the key-injectivity proviso the
invariant fails, per the counterexample.) -/
theorem coherence_invariant {T : Type} (x : T → JSId) (ops : List (Op T))
    (hinj : ∀ a ∈ opsIds x ops, ∀ b ∈ opsIds x ops, a.toKey = b.toKey → a = b)
    (hok : opsOk x (emptyEngine T) ops = true) :
    (∀ k, mirrorHasKey (runOps x (emptyEngine T) ops).documentById k = true ↔
      ∃ i ∈ (runOps x (emptyEngine T) ops).index, i.toKey = k) ∧
    (∀ i ∈ (runOps x (emptyEngine T) ops).index,
      mirrorGet (runOps x (emptyEngine T) ops).documentById i.toKey
        = lastAdded x none ops i) := by
  obtain ⟨-, -, h3, h4⟩ := coherence_run x ops hinj hok
  exact ⟨h3, h4⟩

/-- C1 witness: a concrete failure-free run with key-distinct identities; at
its end the identity "a" is indexed and its mirror entry is its last-added
document. -/
theorem coherence_invariant_witness :
    mirrorGet (runOps idExtract (emptyEngine JSId)
        [Op.add (JSId.num 1), Op.add (JSId.str "a"),
          Op.remove (JSId.num 1)]).documentById (JSId.str "a").toKey =
      lastAdded idExtract none
        [Op.add (JSId.num 1), Op.add (JSId.str "a"), Op.remove (JSId.num 1)]
        (JSId.str "a") :=
  (coherence_invariant idExtract
      [Op.add (JSId.num 1), Op.add (JSId.str "a"), Op.remove (JSId.num 1)]
      (by decide) (by decide)).2 (JSId.str "a") (by decide)

end ReactMiniSearch
